import Mathlib

/-!
Verification development for the chat bulk-delete content script
(`content.js` / `src/content/main.ts`, class `ChatBulkUI`).

The script drives the host page's own UI to delete the selected sidebar
items: it locates a row by its href, opens the row's options menu, clicks
the delete entry, confirms the dialog, and waits for the row to disappear,
with a worker pool draining the snapshot of selected items.

The embedding below models:
 * the pure Locator helpers (`normalizePath`, `extractIdFromHref`,
   `findRowByHref`) directly as string/list functions;
 * the constructor's option normalization (concurrency clamp);
 * the polling waiter `waitFor` as a fuel-bounded loop over an abstract
   poll sequence, with idealized time `poll index * step`;
 * `openMenu` as a retry loop over an abstract per-attempt document state;
 * `deleteViaUI` as the sequence of gated steps, each bounded wait's
   outcome abstracted to whether it resolved within its deadline;
 * the worker pool of `runBulkDelete` as a small-step system over a shared
   cursor, parametrized by an explicit interleaving schedule.
-/

namespace ChatBulk

/-! ## Locator: URL/path helpers -/

/-- A char that survives `new URL(href, origin).pathname` for a
root-relative ref: the pathname is the part of the ref before the first
query (`?`) or fragment (`#`) delimiter.  (`content.js` line 51.) -/
def notQueryChar (c : Char) : Bool := !(c == '?' || c == '#')

def isSlash (c : Char) : Bool := c == '/'

/-- The `u.pathname` step of `normalizePath` (`content.js` lines 50-52),
modelled for root-relative refs (the sidebar hrefs `/c/...`, `/g/.../c/...`)
without dot segments or characters needing percent-encoding: the pathname
is the ref cut at the first `?` or `#`.  The `catch` branch
(`href.split('?')[0]`, line 54) computes the same value on this class. -/
def cutQuery (s : String) : String := String.mk (s.data.takeWhile notQueryChar)

/-- The `.replace(/\/+$/, '')` step of `normalizePath`: drop every
trailing `/`. -/
def stripTrailingSlashes (s : String) : String :=
  String.mk ((s.data.reverse.dropWhile isSlash).reverse)

/-- `normalizePath(href)` (`content.js` lines 49-56): pathname of the ref,
with trailing slashes removed. -/
def normalizePath (href : String) : String := stripTrailingSlashes (cutQuery href)

/-- `normalizePath` at the level of char lists: cut at the first query or
fragment delimiter, then drop trailing slashes. -/
def normList (l : List Char) : List Char :=
  ((l.takeWhile notQueryChar).reverse.dropWhile isSlash).reverse

/-- A char matched by the id class `[a-z0-9-]` under the `/i` flag of the
pattern `/\/c\/([a-z0-9-]+)(?:\/)?$/i` (`content.js` line 61): an ASCII
letter (either case), a digit, or `-`. -/
def isIdChar (c : Char) : Bool := c.isAlphanum || c == '-'

/-- The maximal run of id chars at the end of the normalized path.  The
regex capture `([a-z0-9-]+)` anchored at `$` (after the optional trailing
slash, which `normalizePath` has already removed) must be exactly this
run: the char right before the capture is the literal `/`, which is not an
id char, so the capture cannot be a proper suffix of the run. -/
def trailingIdRun (path : String) : String :=
  String.mk ((path.data.reverse.takeWhile isIdChar).reverse)

/-- The normalized path with its trailing id-char run removed; the regex
requires it to end with the literal `/c/`. -/
def idRunStem (path : String) : String :=
  String.mk ((path.data.reverse.dropWhile isIdChar).reverse)

/-- The letter of the pattern's literal `c` segment: the `/i` flag spans
the whole regex, so the literal matches either case. -/
def isCChar (c : Char) : Bool := c == 'c' || c == 'C'

/-- Whether a string ends with the pattern's literal `/c/`, matched
case-insensitively on the letter per the `/i` flag (slashes have no
case): its last three chars are `/`, then `c` or `C`, then `/`. -/
def endsWithCSeg (s : String) : Bool :=
  match s.data.reverse with
  | sl1 :: cc :: sl2 :: _ => sl1 == '/' && isCChar cc && sl2 == '/'
  | _ => false

/-- Whether the normalized path matches `/\/c\/([a-z0-9-]+)(?:\/)?$/i`:
a nonempty trailing id run immediately preceded by the case-insensitive
literal `/c/`. -/
def hasIdSegment (path : String) : Bool :=
  !(trailingIdRun path).isEmpty && endsWithCSeg (idRunStem path)

/-- `extractIdFromHref(href)` (`content.js` lines 58-63): `null` for an
empty (falsy) href, otherwise the regex capture on the normalized path, or
`null` when the pattern does not match. -/
def extractIdFromHref (href : String) : Option String :=
  if href = "" then none
  else
    let path := normalizePath href
    if hasIdSegment path then some (trailingIdRun path) else none

/-- `findRowByHref(href)` (`content.js` lines 67-77): scan the candidate
rows (each abstracted to its href string, in document order) and return
the first whose normalized path equals the target's normalized path. -/
def findRowByHref (rows : List String) (href : String) : Option String :=
  rows.find? (fun a => normalizePath a == normalizePath href)

/-! ## Constructor option normalization -/

/-- The options record held by a `ChatBulkUI` instance (constructor
parameters, `content.js` lines 3-27). -/
structure ChatBulkOpts where
  enabled : Bool
  stealth : Bool
  concurrency : Int
  staggerMs : Int
  maxMenuWaitMs : Int
  maxDialogWaitMs : Int
  clickRetries : Nat
  clickRetryDelay : Int
  afterDeleteWaitMs : Int

/-- The constructor body (`content.js` lines 14-22): every option is
stored as passed except `concurrency`, which is clamped by
`Math.max(1, Math.min(4, concurrency))` (line 16). -/
def ctorOpts (o : ChatBulkOpts) : ChatBulkOpts :=
  ⟨o.enabled, o.stealth, max 1 (min 4 o.concurrency), o.staggerMs,
   o.maxMenuWaitMs, o.maxDialogWaitMs, o.clickRetries, o.clickRetryDelay,
   o.afterDeleteWaitMs⟩

/-- Replace the `concurrency` argument of an option record, leaving the
other constructor arguments unchanged. -/
def setConcurrency (o : ChatBulkOpts) (c : Int) : ChatBulkOpts :=
  ⟨o.enabled, o.stealth, c, o.staggerMs, o.maxMenuWaitMs, o.maxDialogWaitMs,
   o.clickRetries, o.clickRetryDelay, o.afterDeleteWaitMs⟩

/-- The options built by the init call at the bottom of the script
(`content.js` lines 485-490): `enabled`, `stealth`, `concurrency = 2`,
`staggerMs = 50`, with the remaining constructor defaults. -/
def cfgDefault : ChatBulkOpts := ctorOpts ⟨true, true, 2, 50, 3500, 7000, 8, 140, 140⟩

/-! ## The polling waiter `waitFor` -/

/-- The generic timeout rejection message of `waitFor`
(`content.js` line 439). -/
def timeoutMsg : String := "Таймаут ожидания"

/-- The loop body of `waitFor` (`content.js` lines 432-444), over an
abstract poll sequence `fn : Nat → Option α` giving the predicate's
result at its `k`-th evaluation (a thrown predicate exception is already
`none`, matching the `try/catch` on line 437).  Time is idealized as
`poll index * step`, the spacing `setTimeout(loop, step)` requests; the
first iteration runs at elapsed time 0.  Per the source, each iteration
first evaluates the predicate, resolves on a truthy result, and only then
compares elapsed time to the timeout, rejecting with `timeoutMsg`.  The
explicit fuel only bounds the recursion; `waitFor` passes enough fuel to
reach the deadline, and exhausted fuel yields the same timeout rejection. -/
def waitForLoop {α : Type} (fn : Nat → Option α) (timeout : Int) (step : Nat) :
    Nat → Nat → Except String α
  | 0, _ => Except.error timeoutMsg
  | fuel + 1, k =>
    match fn k with
    | some v => Except.ok v
    | none =>
      if (k * step : Int) > timeout then Except.error timeoutMsg
      else waitForLoop fn timeout step fuel (k + 1)

/-- Fuel covering every poll up to the deadline: the first poll with
`k * step > timeout` is at `k = timeout / step + 1` at the latest. -/
def waitForFuel (timeout : Int) (step : Nat) : Nat :=
  timeout.toNat / max step 1 + 2

/-- `waitFor(fn, timeout, step)` (`content.js` lines 432-444; the script
always uses the default `step = 45`). -/
def waitFor {α : Type} (fn : Nat → Option α) (timeout : Int) (step : Nat) :
    Except String α :=
  waitForLoop fn timeout step (waitForFuel timeout step) 0

/-! ## `openMenu`: menus and the click-retry loop -/

/-- A menu element, reduced to the attributes the `openMenu` selectors
read: `role`, `data-state`, and `aria-labelledby`. -/
structure MenuEl where
  role : String
  dataState : String
  ariaLabelledby : Option String

/-- The selector `[role="menu"][data-state="open"]`
(`content.js` lines 350 and 357). -/
def isOpenMenu (m : MenuEl) : Bool := m.role == "menu" && m.dataState == "open"

/-- The selector `[role="menu"][aria-labelledby="<id>"]`
(`content.js` line 349): a menu associated with the trigger's identity,
with no `data-state` requirement. -/
def isMenuFor (id : String) (m : MenuEl) : Bool :=
  m.role == "menu" && m.ariaLabelledby == some id

/-- The document state `openMenu` observes: the menu elements present
during attempt `i`'s 250ms wait window, and those present at the final
check after the retry loop. -/
structure MenuEnv where
  docAt : Nat → List MenuEl
  finalDoc : List MenuEl

/-- Whether attempt `i`'s 250ms `waitFor` resolves: some element in the
attempt's document matches the associated-menu selector or the open-menu
fallback selector (`content.js` lines 347-352). -/
def menuAttemptHit (env : MenuEnv) (id : String) (i : Nat) : Bool :=
  (env.docAt i).any (fun m => isMenuFor id m || isOpenMenu m)

/-- The side-effecting actions one `openMenu` attempt performs, recorded
as a trace: `scrollIntoViewSmart(btn)`, `realClick(btn)`, the 250ms menu
wait, and the `sleep(clickRetryDelay)` between attempts. -/
inductive MenuAct where
  | scroll : MenuAct
  | click : MenuAct
  | waitMenu : MenuAct
  | sleepRetry : MenuAct
deriving DecidableEq, BEq

/-- The E_MENU rejection message (`content.js` line 359). -/
def eMenuMsg : String := "Меню не открылось вовремя (E_MENU)"

/-- The retry loop of `openMenu` (`content.js` lines 341-360), from
attempt index `i` with `rem` attempts left: each attempt scrolls, clicks,
and waits up to 250ms for an associated (or any open) menu, returning on
success, else sleeping `clickRetryDelay` before the next attempt.  When
attempts run out, the final fallback check succeeds if any open menu
exists, otherwise E_MENU is thrown. -/
def openMenuFrom (env : MenuEnv) (id : String) :
    Nat → Nat → List MenuAct × Except String Unit
  | _, 0 =>
    ([], if env.finalDoc.any isOpenMenu then Except.ok () else Except.error eMenuMsg)
  | i, rem + 1 =>
    if menuAttemptHit env id i then
      ([MenuAct.scroll, MenuAct.click, MenuAct.waitMenu], Except.ok ())
    else
      (MenuAct.scroll :: MenuAct.click :: MenuAct.waitMenu :: MenuAct.sleepRetry ::
         (openMenuFrom env id (i + 1) rem).1,
       (openMenuFrom env id (i + 1) rem).2)

/-- `openMenu(btn)` with `clickRetries = retries`; `id` is the trigger's
element id (assigned on entry at `content.js` line 342). -/
def openMenu (env : MenuEnv) (id : String) (retries : Nat) :
    List MenuAct × Except String Unit :=
  openMenuFrom env id 0 retries

/-- The action trace of `r` exhausted (menu-less) attempts. -/
def attemptsTrace : Nat → List MenuAct
  | 0 => []
  | r + 1 =>
    MenuAct.scroll :: MenuAct.click :: MenuAct.waitMenu :: MenuAct.sleepRetry ::
      attemptsTrace r

/-- An environment with no menu ever present. -/
def menuEnvNone : MenuEnv := ⟨fun _ => [], []⟩

/-- An environment where every attempt window is menu-less but after the
retries a stray open menu exists that is labelled by a different trigger. -/
def menuEnvStray : MenuEnv := ⟨fun _ => [], [⟨"menu", "open", some "other-btn"⟩]⟩

/-- An environment whose menu (labelled by trigger id `b`) is open from
the first attempt on. -/
def menuEnvOk : MenuEnv :=
  ⟨fun _ => [⟨"menu", "open", some "b"⟩], [⟨"menu", "open", some "b"⟩]⟩

/-! ## `deleteViaUI`: the per-item deletion sequence -/

/-- Whether an `Except` result is a success. -/
def exceptOk {ε α : Type} : Except ε α → Bool
  | Except.ok _ => true
  | Except.error _ => false

/-- The environment one `deleteViaUI(href)` run observes: for each
bounded wait of the step sequence, whether it resolved within its
deadline, plus the menu environment and trigger id that `openMenu` sees.
`rowGone` is whether the 8000ms `waitFor(() => !findRowByHref(href))`
resolved, i.e. the row disappeared within the wait. -/
structure ItemEnv where
  rowFound : Bool
  btnFound : Bool
  menuEnv : MenuEnv
  btnId : String
  deleteItemFound : Bool
  confirmFound : Bool
  rowGone : Bool

/-- `deleteViaUI(href)` (`content.js` lines 288-310).  Each named step
wraps its wait in `.catch(() => null)` and throws its own error; the
AwaitRowGone wait on line 307 (`waitFor(() => !findRowByHref(href), 8000)`)
has no catch, so its timeout rejection (`timeoutMsg`) propagates as the
result of `deleteViaUI` itself.  The trailing `sleep` and
`safeCloseMenus()` do not affect the result. -/
def deleteViaUI (cfg : ChatBulkOpts) (env : ItemEnv) : Except String Unit :=
  if env.rowFound = false then Except.error "Строка чата не найдена (E_ROW)"
  else if env.btnFound = false then Except.error "Кнопка опций не найдена (E_BTN)"
  else
    match (openMenu env.menuEnv env.btnId cfg.clickRetries).2 with
    | Except.error e => Except.error e
    | Except.ok _ =>
      if env.deleteItemFound = false then
        Except.error "Пункт «Удалить» не найден (E_MENUITEM)"
      else if env.confirmFound = false then
        Except.error "Не найдено подтверждение удаления (E_CONFIRM)"
      else if env.rowGone = false then Except.error timeoutMsg
      else Except.ok ()

/-- An item whose every step succeeds. -/
def envAllOk : ItemEnv := ⟨true, true, menuEnvOk, "b", true, true, true⟩

/-- An item whose every step succeeds except AwaitRowGone: the row is
still present when the 8000ms wait elapses. -/
def envRowStays : ItemEnv := ⟨true, true, menuEnvOk, "b", true, true, false⟩

/-! ## The worker pool of `runBulkDelete` -/

/-- The phase a worker (`content.js` lines 244-271) is in, between the
suspension points of its loop: `check` is at the `while (i < items.length)`
test (claiming `items[i++]` is atomic with the test — no suspension
between them); `item e` is awaiting `deleteViaUI` on the claimed item
`e`; `pause` is awaiting the `idleOrSleep(staggerMs)` stagger after the
counter updates; `idle` is after the loop exits. -/
inductive WPhase where
  | check : WPhase
  | item : ItemEnv → WPhase
  | pause : WPhase
  | idle : WPhase

/-- Whether a worker has exited its loop. -/
def isIdle : WPhase → Bool
  | WPhase.idle => true
  | _ => false

/-- Whether a worker holds a claimed, not yet accounted item. -/
def isItem : WPhase → Bool
  | WPhase.item _ => true
  | _ => false

/-- The shared state of a `runBulkDelete` run (`content.js` lines
231-273): the queue cursor `i`, the counters `processed`, `ok`, `fail`,
and each worker's phase. -/
structure PoolState where
  nextIdx : Nat
  processed : Nat
  ok : Nat
  fail : Nat
  workers : List WPhase

def dfltItemEnv : ItemEnv := ⟨false, false, menuEnvNone, "", false, false, false⟩

/-- Advance worker `w` by one atomic segment (the code between two
suspension points; every shared-state mutation happens inside one such
segment, so the interleaving of workers is fully captured by the order in
which segments run).
At `check`: either claim `items[i++]` or exit the loop.
At `item e`: the awaited `deleteViaUI` settles; `ok++` on success or
`fail++` in the catch, then `processed++` in the finally — all in the same
synchronous segment.
At `pause`: the stagger timer fires, back to the loop test.
At `idle`, or for an out-of-range worker index: nothing happens. -/
def stepWorker (cfg : ChatBulkOpts) (envs : List ItemEnv) (st : PoolState) (w : Nat) :
    PoolState :=
  match st.workers[w]? with
  | none => st
  | some WPhase.check =>
    if st.nextIdx < envs.length then
      ⟨st.nextIdx + 1, st.processed, st.ok, st.fail,
       st.workers.set w (WPhase.item (envs.getD st.nextIdx dfltItemEnv))⟩
    else
      ⟨st.nextIdx, st.processed, st.ok, st.fail, st.workers.set w WPhase.idle⟩
  | some (WPhase.item e) =>
    ⟨st.nextIdx, st.processed + 1,
     st.ok + (if exceptOk (deleteViaUI cfg e) then 1 else 0),
     st.fail + (if exceptOk (deleteViaUI cfg e) then 0 else 1),
     st.workers.set w WPhase.pause⟩
  | some WPhase.pause =>
    ⟨st.nextIdx, st.processed, st.ok, st.fail, st.workers.set w WPhase.check⟩
  | some WPhase.idle => st

/-- The state when `Promise.all` launches the `concurrency` workers:
cursor and counters at zero, every worker at its loop test. -/
def initPool (w : Nat) : PoolState := ⟨0, 0, 0, 0, List.replicate w WPhase.check⟩

/-- Run the pool under an explicit interleaving schedule: `sched` lists,
in order, which worker's next atomic segment runs. -/
def runPool (cfg : ChatBulkOpts) (envs : List ItemEnv) (w : Nat) (sched : List Nat) :
    PoolState :=
  sched.foldl (stepWorker cfg envs) (initPool w)

/-- A schedule draining `m` items with worker 0 alone: three segments
(claim, settle, stagger) per item. -/
def drainSched : Nat → List Nat
  | 0 => []
  | m + 1 => 0 :: 0 :: 0 :: drainSched m

/-- The canonical completing schedule for `n` items and `w` workers:
worker 0 drains all items and exits, then each remaining worker runs its
loop test once and exits.  (The JS cooperative scheduler always delivers
some such complete schedule: `Promise.all` settles only after every
worker's loop has exited.) -/
def canonSched (n w : Nat) : List Nat :=
  drainSched n ++ 0 :: List.range' 1 (w - 1)

/-- Invariant of every reachable pool state: the counters add up, the
cursor counts accounted plus claimed-in-flight items, the cursor never
passes the snapshot length, a worker only exits once the cursor has
reached the end, and the worker list keeps its size. -/
def InvP (envs : List ItemEnv) (w : Nat) (st : PoolState) : Prop :=
  st.processed = st.ok + st.fail
  ∧ st.nextIdx = st.processed + st.workers.countP isItem
  ∧ st.nextIdx ≤ envs.length
  ∧ (st.workers.any isIdle = true → envs.length ≤ st.nextIdx)
  ∧ st.workers.length = w

/-! ## `runBulkDelete`: flags around the run -/

/-- The page/user-interface flags `runBulkDelete` toggles: the action
bar's `running` class, the busy loader visibility, and the document-wide
stealth attribute `data-cbm-stealth`. -/
structure UIState where
  running : Bool
  loaderShown : Bool
  stealthAttr : Bool

/-- The flag state in which `runBulkDelete` can be triggered (the delete
button is disabled while `running` is set). -/
def initialUI : UIState := ⟨false, false, false⟩

/-- `runBulkDelete()` (`content.js` lines 224-285), its view collaborators
reduced to the `UIState` flags.  The guards on lines 225-227 return
without touching any flag.  Otherwise the run marks `running`, shows the
loader, sets the stealth attribute if configured (lines 234-240), drains
the pool (the `try` block always completes: every per-item rejection is
caught inside the worker), and the `finally` on lines 279-284
unconditionally removes the stealth attribute, hides the loader and
clears `running`.  The pool runs `concurrency` workers to completion,
modelled by the canonical complete schedule. -/
def runBulkDelete (cfg : ChatBulkOpts) (envs : List ItemEnv) (ui : UIState) :
    UIState × PoolState :=
  if cfg.enabled = false then (ui, initPool cfg.concurrency.toNat)
  else if envs.isEmpty then (ui, initPool cfg.concurrency.toNat)
  else
    let final := runPool cfg envs cfg.concurrency.toNat
      (canonSched envs.length cfg.concurrency.toNat)
    (⟨false, false, false⟩, final)

/-! ## List helper lemmas -/

theorem takeWhile_of_all {α : Type} {p : α → Bool} :
    ∀ {l : List α}, (∀ c ∈ l, p c = true) → l.takeWhile p = l := by
  intro l h
  induction l with
  | nil => rfl
  | cons a l ih =>
    have ha : p a = true := h a (List.mem_cons_self a l)
    have hl : l.takeWhile p = l := ih (fun c hc => h c (List.mem_cons_of_mem a hc))
    rw [List.takeWhile_cons, if_pos ha, hl]

theorem dropWhile_idem {α : Type} {p : α → Bool} :
    ∀ (l : List α), (l.dropWhile p).dropWhile p = l.dropWhile p := by
  intro l
  induction l with
  | nil => rfl
  | cons a l ih =>
    by_cases ha : p a = true
    · simp [List.dropWhile_cons, ha, ih]
    · simp at ha
      simp [List.dropWhile_cons, ha]

theorem mem_of_mem_takeWhile {α : Type} {p : α → Bool} :
    ∀ {l : List α} {a : α}, a ∈ l.takeWhile p → p a = true := by
  intro l
  induction l with
  | nil => intro a h; simp [List.takeWhile] at h
  | cons b l ih =>
    intro a h
    rw [List.takeWhile_cons] at h
    by_cases hb : p b = true
    · simp [hb] at h
      rcases h with h | h
      · exact h ▸ hb
      · exact ih h
    · simp [hb] at h

/-! ## Claims about the Locator -/

theorem normalizePath_eq_normList (s : String) :
    normalizePath s = String.mk (normList s.data) := rfl

theorem normList_idem (l : List Char) : normList (normList l) = normList l := by
  unfold normList
  have htw : (((l.takeWhile notQueryChar).reverse.dropWhile isSlash).reverse).takeWhile
      notQueryChar = ((l.takeWhile notQueryChar).reverse.dropWhile isSlash).reverse := by
    apply takeWhile_of_all
    intro c hc
    rw [List.mem_reverse] at hc
    have hc2 : c ∈ (l.takeWhile notQueryChar).reverse :=
      (List.dropWhile_sublist _).subset hc
    rw [List.mem_reverse] at hc2
    exact mem_of_mem_takeWhile hc2
  rw [htw, List.reverse_reverse, dropWhile_idem]

/-- C5: `normalizePath` is idempotent on every ref string. -/
theorem normalizePath_idem (href : String) :
    normalizePath (normalizePath href) = normalizePath href := by
  rw [normalizePath_eq_normList, normalizePath_eq_normList]
  show String.mk (normList (normList href.data)) = String.mk (normList href.data)
  rw [normList_idem]

/-- C4: `extractIdFromHref` yields the same id `abc-123` for `/c/abc-123`
and `/g/xyz/c/abc-123` and their trailing-slash and query-string variants
(including the uppercase `/C/` segment the pattern's `/i` flag admits),
yields `none` for `/c/`, and yields `none` for every ref whose normalized
path has no identifier segment (no match of the id pattern). -/
theorem extractId_spec :
    extractIdFromHref "/c/abc-123" = some "abc-123"
    ∧ extractIdFromHref "/c/abc-123/" = some "abc-123"
    ∧ extractIdFromHref "/c/abc-123?q=1" = some "abc-123"
    ∧ extractIdFromHref "/g/xyz/c/abc-123" = some "abc-123"
    ∧ extractIdFromHref "/g/xyz/c/abc-123/" = some "abc-123"
    ∧ extractIdFromHref "/g/xyz/c/abc-123/?q=2" = some "abc-123"
    ∧ extractIdFromHref "/C/abc-123" = some "abc-123"
    ∧ extractIdFromHref "/g/xyz/C/abc-123" = some "abc-123"
    ∧ extractIdFromHref "/c/" = none
    ∧ (∀ href : String,
        hasIdSegment (normalizePath href) = false → extractIdFromHref href = none) := by
  refine ⟨by decide, by decide, by decide, by decide, by decide, by decide, by decide,
    by decide, by decide, ?_⟩
  intro href h
  unfold extractIdFromHref
  split
  · rfl
  · simp [h]

/-- Witness for C4's universally quantified conjunct at a concrete ref
with no identifier segment. -/
theorem extractId_spec_w :
    hasIdSegment (normalizePath "/g/settings") = false
    ∧ extractIdFromHref "/g/settings" = none :=
  ⟨by decide, extractId_spec.2.2.2.2.2.2.2.2.2 "/g/settings" (by decide)⟩

/-- C6: `findRowByHref` returns a candidate row only when that
candidate's normalized path equals the target's normalized path exactly,
and returns `none` when no candidate matches exactly. -/
theorem findRowByHref_exact (rows : List String) (href : String) :
    (∀ r, findRowByHref rows href = some r →
        r ∈ rows ∧ normalizePath r = normalizePath href)
    ∧ ((∀ r ∈ rows, normalizePath r ≠ normalizePath href) →
        findRowByHref rows href = none) := by
  constructor
  · intro r hr
    refine ⟨List.mem_of_find?_eq_some hr, ?_⟩
    have hp := List.find?_some hr
    simpa using hp
  · intro h
    apply List.find?_eq_none.mpr
    intro a ha
    simp [h a ha]

/-- Witness for C6 at concrete rows: the exact-match row is returned even
though the target carries a trailing slash and a query string. -/
theorem findRowByHref_exact_w :
    "/c/beta" ∈ ["/c/alpha", "/c/beta"]
    ∧ normalizePath "/c/beta" = normalizePath "/c/beta/?x=1" :=
  (findRowByHref_exact ["/c/alpha", "/c/beta"] "/c/beta/?x=1").1 "/c/beta" (by decide)

/-- C7: the constructor clamps `concurrency` to `[1,4]`: 10 behaves as 4
and 0 behaves as 1 (the stored option records are equal), and in general
the stored bound is `max 1 (min 4 c)`. -/
theorem ctor_clamps_concurrency (o : ChatBulkOpts) :
    ctorOpts (setConcurrency o 10) = ctorOpts (setConcurrency o 4)
    ∧ (ctorOpts (setConcurrency o 10)).concurrency = 4
    ∧ ctorOpts (setConcurrency o 0) = ctorOpts (setConcurrency o 1)
    ∧ (ctorOpts (setConcurrency o 0)).concurrency = 1
    ∧ (ctorOpts o).concurrency = max 1 (min 4 o.concurrency) := by
  refine ⟨?_, ?_, ?_, ?_, rfl⟩
  · simp [ctorOpts, setConcurrency]
  · show max (1 : Int) (min 4 10) = 4
    decide
  · simp [ctorOpts, setConcurrency]
  · show max (1 : Int) (min 4 0) = 1
    decide

/-! ## Claims about `waitFor` -/

/-- C10: `waitFor` evaluates its predicate once before checking the
deadline: whenever the first evaluation yields a value, `waitFor` resolves
with that value — for every timeout, including 0 and negative ones — and a
timeout rejection implies the first evaluation yielded nothing. -/
theorem waitFor_first_eval {α : Type} (fn : Nat → Option α) (timeout : Int) (step : Nat) :
    (∀ v, fn 0 = some v → waitFor fn timeout step = Except.ok v)
    ∧ (∀ e, waitFor fn timeout step = Except.error e → fn 0 = none) := by
  constructor
  · intro v hv
    show waitForLoop fn timeout step (waitForFuel timeout step) 0 = Except.ok v
    show waitForLoop fn timeout step (timeout.toNat / max step 1 + 2) 0 = Except.ok v
    rw [waitForLoop]
    simp [hv]
  · intro e he
    cases h0 : fn 0 with
    | none => rfl
    | some v =>
      have hok : waitFor fn timeout step = Except.ok v := by
        show waitForLoop fn timeout step (timeout.toNat / max step 1 + 2) 0 = Except.ok v
        rw [waitForLoop]
        simp [h0]
      rw [hok] at he
      exact absurd he (by simp)

/-- Witness for C10 at a concrete always-true predicate and a negative
timeout. -/
theorem waitFor_first_eval_w :
    waitFor (fun _ => some (7 : Nat)) (-5) 45 = Except.ok 7 :=
  (waitFor_first_eval (fun _ => some (7 : Nat)) (-5) 45).1 7 rfl

/-! ## Claims about `openMenu` -/

theorem openMenuFrom_err_iff (env : MenuEnv) (id : String) :
    ∀ (rem i : Nat),
      ((openMenuFrom env id i rem).2 = Except.error eMenuMsg ↔
        (∀ j < rem, menuAttemptHit env id (i + j) = false)
        ∧ env.finalDoc.any isOpenMenu = false) := by
  intro rem
  induction rem with
  | zero =>
    intro i
    unfold openMenuFrom
    by_cases hf : env.finalDoc.any isOpenMenu = true
    · simp [hf]
    · simp at hf
      simp [hf]
  | succ rem ih =>
    intro i
    by_cases hi : menuAttemptHit env id i = true
    · unfold openMenuFrom
      rw [if_pos hi]
      constructor
      · intro h; exact absurd h (by simp)
      · intro h
        have := h.1 0 (Nat.succ_pos rem)
        rw [Nat.add_zero] at this
        rw [hi] at this
        exact absurd this (by simp)
    · simp at hi
      unfold openMenuFrom
      rw [if_neg (by simp [hi])]
      show (openMenuFrom env id (i + 1) rem).2 = Except.error eMenuMsg ↔ _
      rw [ih (i + 1)]
      constructor
      · rintro ⟨hmiss, hf⟩
        refine ⟨?_, hf⟩
        intro j hj
        cases j with
        | zero => rw [Nat.add_zero]; exact hi
        | succ j' =>
          have := hmiss j' (by omega)
          have harith : i + 1 + j' = i + (j' + 1) := by omega
          rw [harith] at this
          exact this
      · rintro ⟨hmiss, hf⟩
        refine ⟨?_, hf⟩
        intro j hj
        have := hmiss (j + 1) (by omega)
        have harith : i + (j + 1) = i + 1 + j := by omega
        rw [harith] at this
        exact this

theorem openMenuFrom_err_eq (env : MenuEnv) (id : String) :
    ∀ (rem i : Nat) (e : String),
      (openMenuFrom env id i rem).2 = Except.error e → e = eMenuMsg := by
  intro rem
  induction rem with
  | zero =>
    intro i e h
    unfold openMenuFrom at h
    cases hf : env.finalDoc.any isOpenMenu with
    | true =>
      rw [if_pos hf] at h
      exact absurd h (by simp)
    | false =>
      rw [if_neg (by simp [hf])] at h
      simpa using h.symm
  | succ rem ih =>
    intro i e h
    unfold openMenuFrom at h
    by_cases hi : menuAttemptHit env id i = true
    · rw [if_pos hi] at h
      exact absurd h (by simp)
    · rw [if_neg hi] at h
      exact ih (i + 1) e h

theorem openMenuFrom_clicks_le (env : MenuEnv) (id : String) :
    ∀ (rem i : Nat), (openMenuFrom env id i rem).1.count MenuAct.click ≤ rem := by
  intro rem
  induction rem with
  | zero =>
    intro i
    unfold openMenuFrom
    simp
  | succ rem ih =>
    intro i
    unfold openMenuFrom
    by_cases hi : menuAttemptHit env id i = true
    · rw [if_pos hi]
      show List.count MenuAct.click [MenuAct.scroll, MenuAct.click, MenuAct.waitMenu] ≤ rem + 1
      have h1 : List.count MenuAct.click
          [MenuAct.scroll, MenuAct.click, MenuAct.waitMenu] = 1 := rfl
      omega
    · rw [if_neg hi]
      show List.count MenuAct.click (MenuAct.scroll :: MenuAct.click :: MenuAct.waitMenu ::
        MenuAct.sleepRetry :: (openMenuFrom env id (i + 1) rem).1) ≤ rem + 1
      have h2 : ∀ l : List MenuAct,
          List.count MenuAct.click (MenuAct.scroll :: MenuAct.click :: MenuAct.waitMenu ::
            MenuAct.sleepRetry :: l) = List.count MenuAct.click l + 1 := by
        intro l
        simp [List.count_cons, show (MenuAct.scroll == MenuAct.click) = false from rfl,
          show (MenuAct.waitMenu == MenuAct.click) = false from rfl,
          show (MenuAct.sleepRetry == MenuAct.click) = false from rfl,
          show (MenuAct.click == MenuAct.click) = true from rfl]
      rw [h2]
      have := ih (i + 1)
      omega

theorem openMenuFrom_all_miss (env : MenuEnv) (id : String) :
    ∀ (rem i : Nat), (∀ j < rem, menuAttemptHit env id (i + j) = false) →
      (openMenuFrom env id i rem).1 = attemptsTrace rem
      ∧ (openMenuFrom env id i rem).2 =
          (if env.finalDoc.any isOpenMenu then Except.ok () else Except.error eMenuMsg) := by
  intro rem
  induction rem with
  | zero =>
    intro i _
    exact ⟨rfl, rfl⟩
  | succ rem ih =>
    intro i hmiss
    have hi : menuAttemptHit env id i = false := by
      have := hmiss 0 (Nat.succ_pos rem)
      rwa [Nat.add_zero] at this
    have hrest : ∀ j < rem, menuAttemptHit env id (i + 1 + j) = false := by
      intro j hj
      have := hmiss (j + 1) (by omega)
      have harith : i + (j + 1) = i + 1 + j := by omega
      rwa [harith] at this
    obtain ⟨h1, h2⟩ := ih (i + 1) hrest
    unfold openMenuFrom
    rw [if_neg (by simp [hi])]
    constructor
    · show MenuAct.scroll :: MenuAct.click :: MenuAct.waitMenu :: MenuAct.sleepRetry ::
        (openMenuFrom env id (i + 1) rem).1 = attemptsTrace (rem + 1)
      rw [attemptsTrace, h1]
    · show (openMenuFrom env id (i + 1) rem).2 = _
      exact h2

/-- C3: `openMenu` performs up to `clickRetries` attempts — each attempt
scrolling, dispatching a realistic click, waiting up to 250ms for a menu
associated with the trigger's id (or any open menu as fallback), and
sleeping `clickRetryDelay` between attempts — and it rejects, always with
E_MENU, exactly when every attempt's wait missed and no open menu exists
at the final check. -/
theorem openMenu_eMenu_iff (env : MenuEnv) (id : String) (r : Nat) :
    ((openMenu env id r).2 = Except.error eMenuMsg ↔
      (∀ i < r, menuAttemptHit env id i = false)
      ∧ env.finalDoc.any isOpenMenu = false)
    ∧ (∀ e, (openMenu env id r).2 = Except.error e → e = eMenuMsg)
    ∧ (openMenu env id r).1.count MenuAct.click ≤ r
    ∧ ((∀ i < r, menuAttemptHit env id i = false) →
        (openMenu env id r).1 = attemptsTrace r) := by
  refine ⟨?_, fun e => openMenuFrom_err_eq env id r 0 e, openMenuFrom_clicks_le env id r 0, ?_⟩
  · have := openMenuFrom_err_iff env id r 0
    simpa using this
  · intro hmiss
    exact (openMenuFrom_all_miss env id r 0 (by simpa using hmiss)).1

/-- Witness for C3: with no menu ever appearing and two retries,
`openMenu` rejects with E_MENU. -/
theorem openMenu_eMenu_iff_w :
    (openMenu menuEnvNone "x" 2).2 = Except.error eMenuMsg :=
  (openMenu_eMenu_iff menuEnvNone "x" 2).1.mpr ⟨by decide, rfl⟩

/-- C9: when every per-attempt wait has timed out but some open menu
exists at the final fallback check — whether or not it is associated with
the clicked trigger — `openMenu` resolves successfully instead of
rejecting with E_MENU. -/
theorem openMenu_stray_fallback (env : MenuEnv) (id : String) (r : Nat) :
    (∀ i < r, menuAttemptHit env id i = false) →
    env.finalDoc.any isOpenMenu = true →
    (openMenu env id r).2 = Except.ok () := by
  intro hmiss hfinal
  have := (openMenuFrom_all_miss env id r 0 (by simpa using hmiss)).2
  rw [if_pos hfinal] at this
  exact this

/-- Witness for C9: the stray open menu at the final check is labelled by
a different trigger, yet `openMenu` succeeds after 8 missed attempts. -/
theorem openMenu_stray_fallback_w :
    isMenuFor "cbm-btn-1" ⟨"menu", "open", some "other-btn"⟩ = false
    ∧ (openMenu menuEnvStray "cbm-btn-1" 8).2 = Except.ok () :=
  ⟨by decide, openMenu_stray_fallback menuEnvStray "cbm-btn-1" 8 (by decide) rfl⟩

/-! ## Worker-pool lemmas -/

theorem countP_set_balance {α : Type} (p : α → Bool) :
    ∀ (l : List α) (i : Nat) (a b : α), l[i]? = some b →
      (l.set i a).countP p + (if p b then 1 else 0)
        = l.countP p + (if p a then 1 else 0) := by
  intro l
  induction l with
  | nil => intro i a b h; simp at h
  | cons x xs ih =>
    intro i a b h
    cases i with
    | zero =>
      simp at h
      subst h
      simp [List.set, List.countP_cons]
      omega
    | succ i =>
      simp at h
      have := ih i a b h
      simp [List.set, List.countP_cons]
      omega

theorem any_of_any_set {α : Type} (p : α → Bool) :
    ∀ (l : List α) (i : Nat) (a : α), (l.set i a).any p = true →
      p a = true ∨ l.any p = true := by
  intro l
  induction l with
  | nil => intro i a h; simp [List.set] at h
  | cons x xs ih =>
    intro i a h
    cases i with
    | zero =>
      simp [List.set] at h
      rcases h with h | h
      · exact Or.inl h
      · right; simp [List.any_cons]; right; simpa using h
    | succ i =>
      simp [List.set, List.any_cons] at h
      rcases h with h | h
      · right; simp [List.any_cons, h]
      · rcases ih i a (by simpa using h) with h2 | h2
        · exact Or.inl h2
        · right; simp [List.any_cons]; right; simpa using h2

theorem getElem_append_mid {α : Type} :
    ∀ (front : List α) (b : α) (back : List α),
      (front ++ b :: back)[front.length]? = some b := by
  intro front
  induction front with
  | nil => intro b back; simp
  | cons x xs ih => intro b back; simpa using ih b back

theorem set_append_mid {α : Type} :
    ∀ (front : List α) (b c : α) (back : List α),
      (front ++ b :: back).set front.length c = front ++ c :: back := by
  intro front
  induction front with
  | nil => intro b c back; rfl
  | cons x xs ih =>
    intro b c back
    simp [List.set, ih b c back]

/-- The invariant `InvP` holds initially. -/
theorem invP_init (envs : List ItemEnv) (w : Nat) : InvP envs w (initPool w) := by
  refine ⟨rfl, ?_, Nat.zero_le _, ?_, by simp [initPool]⟩
  · show (0 : Nat) = 0 + (List.replicate w WPhase.check).countP isItem
    rw [List.countP_eq_zero.mpr]
    · intro a ha
      rw [List.eq_of_mem_replicate ha]
      simp [isItem]
  · intro h
    exfalso
    rw [List.any_eq_true] at h
    obtain ⟨a, ha, hp⟩ := h
    rw [List.eq_of_mem_replicate ha] at hp
    simp [isIdle] at hp

/-- One worker segment preserves the invariant. -/
theorem invP_step (cfg : ChatBulkOpts) (envs : List ItemEnv) (w : Nat)
    (st : PoolState) (j : Nat) (h : InvP envs w st) :
    InvP envs w (stepWorker cfg envs st j) := by
  obtain ⟨h1, h2, h3, h4, h5⟩ := h
  cases hw : st.workers[j]? with
  | none =>
    simp only [stepWorker, hw]
    exact ⟨h1, h2, h3, h4, h5⟩
  | some ph =>
    cases ph with
    | check =>
      by_cases hlt : st.nextIdx < envs.length
      · simp only [stepWorker, hw]
        rw [if_pos hlt]
        have hcnt := countP_set_balance isItem st.workers j
          (WPhase.item (envs.getD st.nextIdx dfltItemEnv)) WPhase.check hw
        rw [show (if isItem WPhase.check = true then (1 : Nat) else 0) = 0 from rfl,
          show (if isItem (WPhase.item (envs.getD st.nextIdx dfltItemEnv)) = true
            then (1 : Nat) else 0) = 1 from rfl] at hcnt
        refine ⟨h1, ?_, ?_, ?_, ?_⟩
        · show st.nextIdx + 1 = st.processed +
            (st.workers.set j (WPhase.item (envs.getD st.nextIdx dfltItemEnv))).countP isItem
          omega
        · show st.nextIdx + 1 ≤ envs.length
          omega
        · intro hany
          show envs.length ≤ st.nextIdx + 1
          rcases any_of_any_set isIdle st.workers j _ hany with hp | hp
          · simp [isIdle] at hp
          · have := h4 hp
            omega
        · show (st.workers.set j _).length = w
          rw [List.length_set]
          exact h5
      · simp only [stepWorker, hw]
        rw [if_neg hlt]
        have hcnt := countP_set_balance isItem st.workers j WPhase.idle WPhase.check hw
        rw [show (if isItem WPhase.check = true then (1 : Nat) else 0) = 0 from rfl,
          show (if isItem WPhase.idle = true then (1 : Nat) else 0) = 0 from rfl] at hcnt
        refine ⟨h1, ?_, h3, ?_, ?_⟩
        · show st.nextIdx = st.processed + (st.workers.set j WPhase.idle).countP isItem
          omega
        · intro _
          show envs.length ≤ st.nextIdx
          omega
        · show (st.workers.set j _).length = w
          rw [List.length_set]
          exact h5
    | item e =>
      simp only [stepWorker, hw]
      have hcnt := countP_set_balance isItem st.workers j WPhase.pause (WPhase.item e) hw
      rw [show (if isItem (WPhase.item e) = true then (1 : Nat) else 0) = 1 from rfl,
        show (if isItem WPhase.pause = true then (1 : Nat) else 0) = 0 from rfl] at hcnt
      refine ⟨?_, ?_, h3, ?_, ?_⟩
      · show st.processed + 1 =
          (st.ok + (if exceptOk (deleteViaUI cfg e) = true then 1 else 0)) +
          (st.fail + (if exceptOk (deleteViaUI cfg e) = true then 0 else 1))
        cases heq : exceptOk (deleteViaUI cfg e) <;> simp [heq] <;> omega
      · show st.nextIdx = st.processed + 1 + (st.workers.set j WPhase.pause).countP isItem
        omega
      · intro hany
        show envs.length ≤ st.nextIdx
        rcases any_of_any_set isIdle st.workers j WPhase.pause hany with hp | hp
        · simp [isIdle] at hp
        · exact h4 hp
      · show (st.workers.set j _).length = w
        rw [List.length_set]
        exact h5
    | pause =>
      simp only [stepWorker, hw]
      have hcnt := countP_set_balance isItem st.workers j WPhase.check WPhase.pause hw
      rw [show (if isItem WPhase.pause = true then (1 : Nat) else 0) = 0 from rfl,
        show (if isItem WPhase.check = true then (1 : Nat) else 0) = 0 from rfl] at hcnt
      refine ⟨h1, ?_, h3, ?_, ?_⟩
      · show st.nextIdx = st.processed + (st.workers.set j WPhase.check).countP isItem
        omega
      · intro hany
        show envs.length ≤ st.nextIdx
        rcases any_of_any_set isIdle st.workers j WPhase.check hany with hp | hp
        · simp [isIdle] at hp
        · exact h4 hp
      · show (st.workers.set j _).length = w
        rw [List.length_set]
        exact h5
    | idle =>
      simp only [stepWorker, hw]
      exact ⟨h1, h2, h3, h4, h5⟩

/-- The invariant holds after any schedule. -/
theorem invP_foldl (cfg : ChatBulkOpts) (envs : List ItemEnv) (w : Nat) :
    ∀ (sched : List Nat) (st : PoolState), InvP envs w st →
      InvP envs w (sched.foldl (stepWorker cfg envs) st) := by
  intro sched
  induction sched with
  | nil => intro st h; exact h
  | cons j rest ih =>
    intro st h
    exact ih _ (invP_step cfg envs w st j h)

theorem invP_runPool (cfg : ChatBulkOpts) (envs : List ItemEnv) (w : Nat)
    (sched : List Nat) : InvP envs w (runPool cfg envs w sched) :=
  invP_foldl cfg envs w sched (initPool w) (invP_init envs w)

/-- One claim-settle-stagger round of worker 0. -/
theorem stepWorker_round (cfg : ChatBulkOpts) (envs : List ItemEnv)
    (st : PoolState) (rest : List WPhase)
    (hw : st.workers = WPhase.check :: rest) (hlt : st.nextIdx < envs.length) :
    ∃ ok2 fail2,
      ((([0, 0, 0] : List Nat)).foldl (stepWorker cfg envs) st).workers
          = WPhase.check :: rest
      ∧ (([0, 0, 0] : List Nat).foldl (stepWorker cfg envs) st).nextIdx
          = st.nextIdx + 1
      ∧ (([0, 0, 0] : List Nat).foldl (stepWorker cfg envs) st)
          = ⟨st.nextIdx + 1, st.processed + 1, ok2, fail2, WPhase.check :: rest⟩ := by
  have e1 : stepWorker cfg envs st 0 =
      ⟨st.nextIdx + 1, st.processed, st.ok, st.fail,
       WPhase.item (envs.getD st.nextIdx dfltItemEnv) :: rest⟩ := by
    simp only [stepWorker, hw, List.getElem?_cons_zero]
    rw [if_pos hlt, List.set_cons_zero]
  have e2 : stepWorker cfg envs
      ⟨st.nextIdx + 1, st.processed, st.ok, st.fail,
       WPhase.item (envs.getD st.nextIdx dfltItemEnv) :: rest⟩ 0 =
      ⟨st.nextIdx + 1, st.processed + 1,
       st.ok + (if exceptOk (deleteViaUI cfg (envs.getD st.nextIdx dfltItemEnv))
         then 1 else 0),
       st.fail + (if exceptOk (deleteViaUI cfg (envs.getD st.nextIdx dfltItemEnv))
         then 0 else 1),
       WPhase.pause :: rest⟩ := by
    simp only [stepWorker, List.getElem?_cons_zero]
    rw [List.set_cons_zero]
  have e3 : ∀ p ok2 fail2, stepWorker cfg envs
      ⟨st.nextIdx + 1, p, ok2, fail2, WPhase.pause :: rest⟩ 0 =
      ⟨st.nextIdx + 1, p, ok2, fail2, WPhase.check :: rest⟩ := by
    intro p ok2 fail2
    simp only [stepWorker, List.getElem?_cons_zero]
    rw [List.set_cons_zero]
  refine ⟨st.ok + (if exceptOk (deleteViaUI cfg (envs.getD st.nextIdx dfltItemEnv))
      then 1 else 0),
    st.fail + (if exceptOk (deleteViaUI cfg (envs.getD st.nextIdx dfltItemEnv))
      then 0 else 1), ?_, ?_, ?_⟩
  · show (stepWorker cfg envs (stepWorker cfg envs (stepWorker cfg envs st 0) 0) 0).workers
      = WPhase.check :: rest
    rw [e1, e2, e3]
  · show (stepWorker cfg envs (stepWorker cfg envs (stepWorker cfg envs st 0) 0) 0).nextIdx
      = st.nextIdx + 1
    rw [e1, e2, e3]
  · show stepWorker cfg envs (stepWorker cfg envs (stepWorker cfg envs st 0) 0) 0 = _
    rw [e1, e2, e3]

/-- Worker 0 alone drains the remaining `m` items and returns to its loop
test, leaving the other workers untouched. -/
theorem drain_zero (cfg : ChatBulkOpts) (envs : List ItemEnv) :
    ∀ (m : Nat) (st : PoolState) (rest : List WPhase),
      st.workers = WPhase.check :: rest → st.nextIdx + m = envs.length →
      ((drainSched m).foldl (stepWorker cfg envs) st).workers = WPhase.check :: rest
      ∧ ((drainSched m).foldl (stepWorker cfg envs) st).nextIdx = envs.length := by
  intro m
  induction m with
  | zero =>
    intro st rest hw hn
    refine ⟨hw, ?_⟩
    show st.nextIdx = envs.length
    omega
  | succ m ih =>
    intro st rest hw hn
    have hlt : st.nextIdx < envs.length := by omega
    obtain ⟨ok2, fail2, hwrk, hidx, hst⟩ := stepWorker_round cfg envs st rest hw hlt
    have hsched : drainSched (m + 1) = [0, 0, 0] ++ drainSched m := rfl
    rw [hsched, List.foldl_append]
    have hnext : (([0, 0, 0] : List Nat).foldl (stepWorker cfg envs) st).nextIdx + m
        = envs.length := by omega
    exact ih _ rest hwrk hnext

/-- After the cursor has reached the end, a worker at its loop test exits. -/
theorem stepWorker_exit (cfg : ChatBulkOpts) (envs : List ItemEnv)
    (st : PoolState) (front back : List WPhase)
    (hw : st.workers = front ++ WPhase.check :: back)
    (hge : ¬ st.nextIdx < envs.length) :
    stepWorker cfg envs st front.length =
      ⟨st.nextIdx, st.processed, st.ok, st.fail, front ++ WPhase.idle :: back⟩ := by
  simp only [stepWorker, hw, getElem_append_mid]
  rw [if_neg hge, set_append_mid]

/-- The remaining workers, each scheduled once in index order, all exit. -/
theorem drain_rest (cfg : ChatBulkOpts) (envs : List ItemEnv) :
    ∀ (k j : Nat) (st : PoolState),
      st.nextIdx = envs.length →
      st.workers = List.replicate j WPhase.idle ++ List.replicate k WPhase.check →
      ((List.range' j k).foldl (stepWorker cfg envs) st).workers
        = List.replicate (j + k) WPhase.idle := by
  intro k
  induction k with
  | zero =>
    intro j st _ hw
    simpa using hw
  | succ k ih =>
    intro j st hn hw
    rw [List.range'_succ]
    have hw2 : st.workers = List.replicate j WPhase.idle
        ++ WPhase.check :: List.replicate k WPhase.check := by
      rw [hw, List.replicate_succ]
    have hstep := stepWorker_exit cfg envs st (List.replicate j WPhase.idle)
      (List.replicate k WPhase.check) (by simpa using hw2) (by omega)
    rw [List.length_replicate] at hstep
    show ((List.range' (j + 1) k).foldl (stepWorker cfg envs)
      (stepWorker cfg envs st j)).workers = _
    have hw3 : (stepWorker cfg envs st j).workers
        = List.replicate (j + 1) WPhase.idle ++ List.replicate k WPhase.check := by
      rw [hstep]
      show List.replicate j WPhase.idle ++ WPhase.idle :: List.replicate k WPhase.check = _
      rw [List.replicate_succ' j WPhase.idle, List.append_assoc]
      rfl
    have hn3 : (stepWorker cfg envs st j).nextIdx = envs.length := by
      rw [hstep]
      exact hn
    have := ih (j + 1) (stepWorker cfg envs st j) hn3 hw3
    rw [this]
    congr 1
    omega

/-- The canonical schedule completes: every worker ends idle. -/
theorem canon_complete (cfg : ChatBulkOpts) (envs : List ItemEnv) (v : Nat) :
    (runPool cfg envs (v + 1) (canonSched envs.length (v + 1))).workers
      = List.replicate (v + 1) WPhase.idle := by
  unfold runPool canonSched
  rw [List.foldl_append]
  have hinit : (initPool (v + 1)).workers = WPhase.check :: List.replicate v WPhase.check := by
    show List.replicate (v + 1) WPhase.check = _
    rw [List.replicate_succ]
  obtain ⟨hwrk, hidx⟩ := drain_zero cfg envs envs.length (initPool (v + 1))
    (List.replicate v WPhase.check) hinit (by show 0 + envs.length = envs.length; omega)
  set st1 := (drainSched envs.length).foldl (stepWorker cfg envs) (initPool (v + 1)) with hst1
  show ((0 :: List.range' 1 ((v + 1) - 1)).foldl (stepWorker cfg envs) st1).workers = _
  have hv : (v + 1) - 1 = v := by omega
  rw [hv]
  have hstep : stepWorker cfg envs st1 0 =
      ⟨st1.nextIdx, st1.processed, st1.ok, st1.fail,
       [] ++ WPhase.idle :: List.replicate v WPhase.check⟩ :=
    stepWorker_exit cfg envs st1 [] (List.replicate v WPhase.check)
      (by simpa using hwrk) (by omega)
  show ((List.range' 1 v).foldl (stepWorker cfg envs) (stepWorker cfg envs st1 0)).workers = _
  have hw1 : (stepWorker cfg envs st1 0).workers
      = List.replicate 1 WPhase.idle ++ List.replicate v WPhase.check := by
    rw [hstep]
    exact rfl
  have hn1 : (stepWorker cfg envs st1 0).nextIdx = envs.length := by
    rw [hstep]
    exact hidx
  have hfin := drain_rest cfg envs v 1 (stepWorker cfg envs st1 0) hn1 hw1
  rw [Nat.add_comm] at hfin
  exact hfin

/-- In a completed state the counters are forced: everything processed,
successes plus failures adding up. -/
theorem invP_counts_of_all_idle (envs : List ItemEnv) (w : Nat) (st : PoolState)
    (hw : 0 < w) (h : InvP envs w st) (hdone : st.workers.all isIdle = true) :
    st.processed = envs.length ∧ st.processed = st.ok + st.fail := by
  obtain ⟨h1, h2, h3, h4, h5⟩ := h
  have hcnt : st.workers.countP isItem = 0 := by
    rw [List.countP_eq_zero]
    intro a ha
    have := List.all_eq_true.mp hdone a ha
    cases a with
    | check => simp [isIdle] at this
    | item e => simp [isIdle] at this
    | pause => simp [isIdle] at this
    | idle => simp [isItem]
  have hne : st.workers ≠ [] := by
    intro hnil
    rw [hnil] at h5
    simp at h5
    omega
  have hany : st.workers.any isIdle = true := by
    obtain ⟨a, ha⟩ := List.exists_mem_of_ne_nil st.workers hne
    rw [List.any_eq_true]
    exact ⟨a, ha, List.all_eq_true.mp hdone a ha⟩
  have := h4 hany
  omega

theorem all_isIdle_replicate (n : Nat) :
    (List.replicate n WPhase.idle).all isIdle = true := by
  rw [List.all_eq_true]
  intro a ha
  rw [List.eq_of_mem_replicate ha]
  rfl

/-! ## Claims about the run -/

/-- C2: a run over a snapshot of `N` items always completes — the
canonical full schedule ends with every worker's loop exited, no per-item
failure aborting the pool — and in every completed state, whatever the
interleaving, the counters satisfy `processed = N` and
`processed = ok + fail`, however many items failed. -/
theorem runPool_total_counts (cfg : ChatBulkOpts) (envs : List ItemEnv) (w : Nat)
    (hw : 0 < w) :
    ((runPool cfg envs w (canonSched envs.length w)).workers.all isIdle = true
     ∧ (runPool cfg envs w (canonSched envs.length w)).processed = envs.length
     ∧ (runPool cfg envs w (canonSched envs.length w)).processed
        = (runPool cfg envs w (canonSched envs.length w)).ok
          + (runPool cfg envs w (canonSched envs.length w)).fail)
    ∧ (∀ sched : List Nat, (runPool cfg envs w sched).workers.all isIdle = true →
        (runPool cfg envs w sched).processed = envs.length
        ∧ (runPool cfg envs w sched).processed
            = (runPool cfg envs w sched).ok + (runPool cfg envs w sched).fail) := by
  have hgen : ∀ sched : List Nat,
      (runPool cfg envs w sched).workers.all isIdle = true →
      (runPool cfg envs w sched).processed = envs.length
      ∧ (runPool cfg envs w sched).processed
          = (runPool cfg envs w sched).ok + (runPool cfg envs w sched).fail :=
    fun sched hdone =>
      invP_counts_of_all_idle envs w _ hw (invP_runPool cfg envs w sched) hdone
  obtain ⟨v, rfl⟩ : ∃ v, w = v + 1 := ⟨w - 1, by omega⟩
  have hall : (runPool cfg envs (v + 1) (canonSched envs.length (v + 1))).workers.all
      isIdle = true := by
    rw [canon_complete cfg envs v]
    exact all_isIdle_replicate (v + 1)
  exact ⟨⟨hall, hgen _ hall⟩, hgen⟩

/-- Witness for C2 at a concrete two-item snapshot (one success, one
timed-out item) and two workers. -/
theorem runPool_total_counts_w :
    (runPool cfgDefault [envAllOk, envRowStays] 2 (canonSched 2 2)).processed = 2
    ∧ (runPool cfgDefault [envAllOk, envRowStays] 2 (canonSched 2 2)).processed
        = (runPool cfgDefault [envAllOk, envRowStays] 2 (canonSched 2 2)).ok
          + (runPool cfgDefault [envAllOk, envRowStays] 2 (canonSched 2 2)).fail :=
  (runPool_total_counts cfgDefault [envAllOk, envRowStays] 2 (by decide)).1.2

/-- C8: once a (non-trivial) run completes, the `running` flag is cleared
— along with the busy loader and the stealth attribute — whatever the
items' outcomes, every-item-failing runs included. -/
theorem runBulkDelete_clears_running (cfg : ChatBulkOpts) (envs : List ItemEnv)
    (ui : UIState) (hen : cfg.enabled = true) (hne : envs ≠ []) :
    (runBulkDelete cfg envs ui).1.running = false
    ∧ (runBulkDelete cfg envs ui).1.loaderShown = false
    ∧ (runBulkDelete cfg envs ui).1.stealthAttr = false := by
  unfold runBulkDelete
  rw [if_neg (by simp [hen]), if_neg (by simp [hne])]
  exact ⟨rfl, rfl, rfl⟩

/-- Witness for C8 at the default options and a one-item snapshot whose
single item fails. -/
theorem runBulkDelete_clears_running_w :
    (runBulkDelete cfgDefault [envRowStays] initialUI).1.running = false
    ∧ (runBulkDelete cfgDefault [envRowStays] initialUI).1.loaderShown = false
    ∧ (runBulkDelete cfgDefault [envRowStays] initialUI).1.stealthAttr = false :=
  runBulkDelete_clears_running cfgDefault [envRowStays] initialUI rfl (by simp)

/-- C1 counterexample: an item whose every step succeeds except that the
row is still present when the AwaitRowGone 8000ms wait elapses.  Contrary
to the claim, `deleteViaUI` rejects (with the generic timeout error, since
that wait has no catch) and the run counts the item as a failure, not a
success. -/
theorem awaitRowGone_cex :
    envRowStays.rowGone = false
    ∧ deleteViaUI cfgDefault envRowStays = Except.error timeoutMsg
    ∧ (runPool cfgDefault [envRowStays] 1 (canonSched 1 1)).ok = 0
    ∧ (runPool cfgDefault [envRowStays] 1 (canonSched 1 1)).fail = 1 :=
  ⟨rfl, rfl, rfl, rfl⟩

/-- C1 amended: when the per-item steps up to ClickConfirm all succeed
but the AwaitRowGone 8000ms wait elapses with the row still present,
`deleteViaUI` rejects with the generic timeout error, and the worker loop
counts the item as a failure (not a success). -/
theorem awaitRowGone_timeout_is_failure (cfg : ChatBulkOpts) (env : ItemEnv)
    (h1 : env.rowFound = true) (h2 : env.btnFound = true)
    (h3 : exceptOk (openMenu env.menuEnv env.btnId cfg.clickRetries).2 = true)
    (h4 : env.deleteItemFound = true) (h5 : env.confirmFound = true)
    (h6 : env.rowGone = false) :
    deleteViaUI cfg env = Except.error timeoutMsg
    ∧ (∀ (envs : List ItemEnv) (st : PoolState) (j : Nat),
        st.workers[j]? = some (WPhase.item env) →
        (stepWorker cfg envs st j).fail = st.fail + 1
        ∧ (stepWorker cfg envs st j).ok = st.ok) := by
  have hdel : deleteViaUI cfg env = Except.error timeoutMsg := by
    cases hm : (openMenu env.menuEnv env.btnId cfg.clickRetries).2 with
    | error e =>
      rw [hm] at h3
      exact absurd h3 (by simp [exceptOk])
    | ok u =>
      unfold deleteViaUI
      rw [if_neg (by simp [h1]), if_neg (by simp [h2]), hm]
      show (if env.deleteItemFound = false then
          Except.error "Пункт «Удалить» не найден (E_MENUITEM)"
        else if env.confirmFound = false then
          Except.error "Не найдено подтверждение удаления (E_CONFIRM)"
        else if env.rowGone = false then Except.error timeoutMsg
        else Except.ok ()) = Except.error timeoutMsg
      rw [if_neg (by simp [h4]), if_neg (by simp [h5]), if_pos h6]
  refine ⟨hdel, ?_⟩
  intro envs st j hj
  constructor
  · show (stepWorker cfg envs st j).fail = st.fail + 1
    simp only [stepWorker, hj]
    show st.fail + (if exceptOk (deleteViaUI cfg env) = true then 0 else 1) = st.fail + 1
    rw [hdel]
    rfl
  · show (stepWorker cfg envs st j).ok = st.ok
    simp only [stepWorker, hj]
    show st.ok + (if exceptOk (deleteViaUI cfg env) = true then 1 else 0) = st.ok
    rw [hdel]
    rfl

/-- Witness for the amended C1 at the concrete timed-out item: the worker
settling it increments `fail`, and leaves `ok` unchanged. -/
theorem awaitRowGone_timeout_is_failure_w :
    deleteViaUI cfgDefault envRowStays = Except.error timeoutMsg
    ∧ (stepWorker cfgDefault [envRowStays]
        ⟨1, 0, 0, 0, [WPhase.item envRowStays]⟩ 0).fail = 0 + 1
    ∧ (stepWorker cfgDefault [envRowStays]
        ⟨1, 0, 0, 0, [WPhase.item envRowStays]⟩ 0).ok = 0 := by
  have h := awaitRowGone_timeout_is_failure cfgDefault envRowStays rfl rfl rfl rfl rfl rfl
  have h2 := h.2 [envRowStays] ⟨1, 0, 0, 0, [WPhase.item envRowStays]⟩ 0 rfl
  exact ⟨h.1, h2.1, h2.2⟩

end ChatBulk
